import Mathlib

/-!
Verification of the advices-api service (src/main.rs): an in-memory
`HashMap<i64, Advice>` behind a reader/writer lock, with list / create /
delete HTTP handlers. The map is embedded as an association list whose
operations reproduce the observable semantics of `std::collections::HashMap`
(at most one entry per key; `insert` overwrites; `remove` returns the removed
value). Machine integers (`i64`) carry no arithmetic in this program, only
equality and parsing, so they are embedded as `Int`.
-/

set_option autoImplicit false

/-- `struct Advice { id: i64, advice: String }` (src/main.rs, lines 102-106). -/
structure Advice where
  id : Int
  advice : String
  deriving DecidableEq, Repr

/-- Observable contents of `Db = Arc<RwLock<HashMap<i64, Advice>>>`
(src/main.rs, line 100). -/
abbrev Db := List (Int × Advice)

/-- Key removal as performed by `HashMap::remove`: drop the (unique) entry with
the given key. -/
def hmErase (k : Int) (m : Db) : Db :=
  m.filter (fun p => p.1 != k)

/-- `HashMap::insert(k, v)`: overwrites any existing entry with the same key. -/
def hmInsert (k : Int) (v : Advice) (m : Db) : Db :=
  (k, v) :: hmErase k m

/-- `HashMap::get(&k)` (cloned value). -/
def hmLookup (k : Int) (m : Db) : Option Advice :=
  (m.find? (fun p => p.1 == k)).map (·.2)

/-- `HashMap::contains_key(&k)`. -/
def hmContains (k : Int) (m : Db) : Bool :=
  m.any (fun p => p.1 == k)

/-- `HashMap::remove(&k)`: the removed value, if any, together with the map
after removal. -/
def hmRemove (k : Int) (m : Db) : Option Advice × Db :=
  (hmLookup k m, hmErase k m)

/-- `advices.values().cloned().collect::<Vec<_>>()` (src/main.rs, line 70). -/
def hmValues (m : Db) : List Advice :=
  m.map (·.2)

/-- Failure of the upstream HTTP call: the two fallible awaits in
`advices_generate` (src/main.rs, lines 91-94), propagated by the two
operators `?`. -/
inductive FetchErr
  | network
  | badJson
  deriving DecidableEq, Repr

/-- How `advices_generate` fails to produce a record: an early-returned fetch
or decode error, or the abort caused by resp.get of the string slip followed by
unwrap when the decoded payload lacks that key (src/main.rs, line 96). -/
inductive GenFailure
  | fetchFailed (e : FetchErr)
  | missingSlip
  deriving DecidableEq, Repr

/-- Lookup into the decoded upstream payload, a `HashMap<String, Advice>`
(src/main.rs, line 93). -/
def slipLookup (key : String) (resp : List (String × Advice)) : Option Advice :=
  (resp.find? (fun p => p.1 == key)).map (·.2)

/-- `advices_generate` (src/main.rs, lines 90-98), with the result of the HTTP
call and JSON decode passed in as a parameter. A fetch/decode error is
propagated by the operator `?`; a payload without the key slip makes the
source unwrap a `None`, embedded as the failure `missingSlip`. -/
def advices_generate (resp : Except FetchErr (List (String × Advice))) :
    Except GenFailure Advice :=
  match resp with
  | .error e => .error (.fetchFailed e)
  | .ok m =>
    match slipLookup "slip" m with
    | some a => .ok a
    | none => .error .missingSlip

/-- Outcome of the create handler: an HTTP response (status, JSON body) with
the resulting store contents, or a crash — the panic raised by unwrap on a
failed `advices_generate` (src/main.rs, line 76) or inside `advices_generate`
itself (line 96) — leaving the store with the given contents. -/
inductive CreateOutcome
  | response (status : Nat) (body : Advice) (db : Db)
  | crash (db : Db)
  deriving DecidableEq, Repr

/-- The store contents after the create handler finishes (a crash inserts
nothing). -/
def CreateOutcome.db : CreateOutcome → Db
  | .response _ _ d => d
  | .crash d => d

/-- `advices_create` (src/main.rs, lines 75-80): obtain one advice from the
upstream, `insert(advice.id, advice.clone())`, respond `201 Created` with the
advice as JSON body. unwrap of a failed generate panics. -/
def advices_create (resp : Except FetchErr (List (String × Advice))) (db : Db) :
    CreateOutcome :=
  match advices_generate resp with
  | .ok advice => .response 201 advice (hmInsert advice.id advice db)
  | .error _ => .crash db

/-- `advices_index` (src/main.rs, lines 68-73): `200 OK` with the list of all
current records as JSON. -/
def advices_index (db : Db) : Nat × List Advice :=
  (200, hmValues db)

/-- `advices_delete` (src/main.rs, lines 82-88): remove the id from the map;
`204 No Content` if a record was removed, `404 Not Found` otherwise. -/
def advices_delete (id : Int) (db : Db) : Nat × Db :=
  let r := hmRemove id db
  if r.1.isSome then (204, r.2) else (404, r.2)

/-- Decimal digits accumulated left to right; any non-digit rejects. -/
def parseNatCore : List Char → Nat → Option Nat
  | [], acc => some acc
  | c :: cs, acc =>
    if c.isDigit then parseNatCore cs (acc * 10 + (c.toNat - 48)) else none

/-- A decimal integer with optional sign, as accepted by the Rust `i64`
string parse: an optional leading plus or minus followed by at least one
digit. -/
def parseIntSeg : List Char → Option Int
  | [] => none
  | '-' :: rest =>
    match rest with
    | [] => none
    | _ => (parseNatCore rest 0).map (fun n => -(n : Int))
  | '+' :: rest =>
    match rest with
    | [] => none
    | _ => (parseNatCore rest 0).map (fun n => (n : Int))
  | cs => (parseNatCore cs 0).map (fun n => (n : Int))

/-- Modelled from the spec: the `Path<i64>` extraction on the delete route
(src/main.rs, line 82) is performed by the web framework, not by code under
src/. Per the spec, a path segment that is not a valid `i64` integer is
rejected before the handler body runs. -/
def parseI64 (s : String) : Option Int :=
  match parseIntSeg s.data with
  | some n => if -(2 ^ 63) ≤ n ∧ n < 2 ^ 63 then some n else none
  | none => none

/-- Modelled from the spec: the delete route as wired in `main`
(src/main.rs, line 32) — extract the id from the path segment, answering
`400 Bad Request` with the store untouched when extraction fails, otherwise
run `advices_delete`. -/
def advices_delete_route (seg : String) (db : Db) : Nat × Db :=
  match parseI64 seg with
  | some id => advices_delete id db
  | none => (400, db)

/-- A handler-level mutation of the store: a create whose upstream fetch
succeeded with record `a`, or a delete of `id`. -/
inductive StoreOp
  | create (a : Advice)
  | delete (id : Int)
  deriving DecidableEq, Repr

/-- Apply one operation through the corresponding handler. -/
def applyOp (db : Db) : StoreOp → Db
  | .create a => (advices_create (.ok [("slip", a)]) db).db
  | .delete i => (advices_delete i db).2

/-- The store reached from the empty initial store by a sequence of handler
operations. -/
def runOps (ops : List StoreOp) : Db :=
  ops.foldl applyOp []

/-- `liveRev l i` reads a reversed operation list (most recent first): id `i`
is live iff some create inserted it and no operation after that create (i.e.
before it in the reversed list) deleted it. -/
def liveRev : List StoreOp → Int → Prop
  | [], _ => False
  | .create a :: rest, i => a.id = i ∨ liveRev rest i
  | .delete j :: rest, i => j ≠ i ∧ liveRev rest i

/-- Id `i` was inserted by some create in `ops` and not subsequently
deleted. -/
def LiveId (ops : List StoreOp) (i : Int) : Prop :=
  liveRev ops.reverse i

/-- The keys of the store. -/
def keysList (m : Db) : List Int :=
  m.map Prod.fst

/-- Every entry is keyed by the id field of the record it holds. -/
def KeyCoherent (m : Db) : Prop :=
  ∀ p ∈ m, p.1 = p.2.id

/-- Observable effects of the create handler body (src/main.rs, lines 75-80):
the upstream fetch starts and completes, the write lock is acquired
(`db.write()`), the insert runs, the lock guard is dropped. -/
inductive Ev
  | fetchStart
  | fetchEnd
  | lockAcquire
  | insertDone
  | lockRelease
  deriving DecidableEq, Repr

/-- The effects of the success path of `advices_create`, in program order:
line 76 awaits the fetch to completion, then line 77 takes the write lock,
inserts, and drops the guard at the end of the statement. -/
def createEvents : List Ev :=
  [.fetchStart, .fetchEnd, .lockAcquire, .insertDone, .lockRelease]

/-! ## Helper lemmas about the map operations -/

theorem hmErase_cons (k : Int) (p : Int × Advice) (l : Db) :
    hmErase k (p :: l) = if p.1 != k then p :: hmErase k l else hmErase k l := by
  simp [hmErase, List.filter_cons]

theorem hmLookup_cons (i : Int) (p : Int × Advice) (l : Db) :
    hmLookup i (p :: l) = if p.1 == i then some p.2 else hmLookup i l := by
  cases h : (p.1 == i) <;> simp [hmLookup, List.find?_cons, h]

theorem hmErase_of_not_contains (k : Int) (m : Db) (h : hmContains k m = false) :
    hmErase k m = m := by
  rw [hmErase, List.filter_eq_self]
  intro p hp
  simp only [hmContains, List.any_eq_false] at h
  simpa using h p hp

theorem hmLookup_erase_self (k : Int) (m : Db) : hmLookup k (hmErase k m) = none := by
  simp only [hmLookup, Option.map_eq_none']
  rw [List.find?_eq_none]
  intro p hp
  simp only [hmErase, List.mem_filter, bne_iff_ne, ne_eq] at hp
  simp [hp.2]

theorem hmLookup_erase_ne (k i : Int) (m : Db) (h : i ≠ k) :
    hmLookup i (hmErase k m) = hmLookup i m := by
  induction m with
  | nil => rfl
  | cons p l ih =>
    by_cases hpk : p.1 = k
    · simp [hmErase_cons, hmLookup_cons, hpk, Ne.symm h, ih]
    · by_cases hpi : p.1 = i <;>
        simp [hmErase_cons, hmLookup_cons, hpk, hpi, h, ih]

theorem hmContains_iff_lookup (k : Int) (m : Db) :
    hmContains k m = (hmLookup k m).isSome := by
  induction m with
  | nil => rfl
  | cons p l ih =>
    rw [hmLookup_cons]
    cases h : (p.1 == k) <;> simp [hmContains, List.any_cons, h, ← ih, hmContains]

theorem hmLookup_insert_self (k : Int) (v : Advice) (m : Db) :
    hmLookup k (hmInsert k v m) = some v := by
  rw [hmInsert, hmLookup_cons]
  simp

theorem hmLookup_insert_ne (k i : Int) (v : Advice) (m : Db) (h : i ≠ k) :
    hmLookup i (hmInsert k v m) = hmLookup i m := by
  rw [hmInsert, hmLookup_cons, if_neg (by simp; exact fun hki => h hki.symm)]
  exact hmLookup_erase_ne k i m h

theorem mem_keys_erase (i k : Int) (m : Db) :
    i ∈ keysList (hmErase k m) ↔ i ∈ keysList m ∧ i ≠ k := by
  simp only [keysList, hmErase, List.mem_map, List.mem_filter, bne_iff_ne, ne_eq]
  constructor
  · rintro ⟨p, ⟨hp, hne⟩, rfl⟩
    exact ⟨⟨p, hp, rfl⟩, hne⟩
  · rintro ⟨⟨p, hp, rfl⟩, hne⟩
    exact ⟨p, ⟨hp, hne⟩, rfl⟩

theorem mem_keys_insert (i k : Int) (v : Advice) (m : Db) :
    i ∈ keysList (hmInsert k v m) ↔ i = k ∨ i ∈ keysList m := by
  have : keysList (hmInsert k v m) = k :: keysList (hmErase k m) := rfl
  rw [this, List.mem_cons, mem_keys_erase]
  by_cases h : i = k <;> simp [h]

theorem nodup_keys_erase (k : Int) (m : Db) (h : (keysList m).Nodup) :
    (keysList (hmErase k m)).Nodup :=
  List.Nodup.sublist ((List.filter_sublist m).map Prod.fst) h

theorem nodup_keys_insert (k : Int) (v : Advice) (m : Db) (h : (keysList m).Nodup) :
    (keysList (hmInsert k v m)).Nodup := by
  have h1 : (keysList (hmErase k m)).Nodup := nodup_keys_erase k m h
  have h2 : k ∉ keysList (hmErase k m) := by
    rw [mem_keys_erase]; simp
  have : keysList (hmInsert k v m) = k :: keysList (hmErase k m) := rfl
  rw [this, List.nodup_cons]
  exact ⟨h2, h1⟩

theorem keyCoherent_erase (k : Int) (m : Db) (h : KeyCoherent m) :
    KeyCoherent (hmErase k m) := by
  intro p hp
  exact h p (List.mem_of_mem_filter hp)

theorem keyCoherent_insert (a : Advice) (m : Db) (h : KeyCoherent m) :
    KeyCoherent (hmInsert a.id a m) := by
  intro p hp
  simp only [hmInsert, List.mem_cons] at hp
  rcases hp with h1 | h1
  · subst h1; rfl
  · exact keyCoherent_erase _ _ h p h1

theorem applyOp_create (db : Db) (a : Advice) :
    applyOp db (.create a) = hmInsert a.id a db := rfl

theorem applyOp_delete (db : Db) (i : Int) :
    applyOp db (.delete i) = hmErase i db := by
  cases h : (hmLookup i db).isSome <;>
    simp [applyOp, advices_delete, hmRemove, h, CreateOutcome.db]

theorem values_ids_eq_keys (m : Db) (h : KeyCoherent m) :
    (hmValues m).map Advice.id = keysList m := by
  rw [hmValues, keysList, List.map_map]
  exact List.map_congr_left (fun p hp => (h p hp).symm)

theorem liveRev_create (a : Advice) (rest : List StoreOp) (i : Int) :
    liveRev (.create a :: rest) i ↔ (a.id = i ∨ liveRev rest i) := Iff.rfl

theorem liveRev_delete (j : Int) (rest : List StoreOp) (i : Int) :
    liveRev (.delete j :: rest) i ↔ (j ≠ i ∧ liveRev rest i) := Iff.rfl

theorem keyCoherent_foldl (ops : List StoreOp) :
    ∀ db, KeyCoherent db → KeyCoherent (ops.foldl applyOp db) := by
  induction ops with
  | nil => intro db h; exact h
  | cons op rest ih =>
    intro db h
    rw [List.foldl_cons]
    apply ih
    cases op with
    | create a => rw [applyOp_create]; exact keyCoherent_insert a db h
    | delete i => rw [applyOp_delete]; exact keyCoherent_erase i db h

theorem nodup_keys_foldl (ops : List StoreOp) :
    ∀ db, (keysList db).Nodup → (keysList (ops.foldl applyOp db)).Nodup := by
  induction ops with
  | nil => intro db h; exact h
  | cons op rest ih =>
    intro db h
    rw [List.foldl_cons]
    apply ih
    cases op with
    | create a => rw [applyOp_create]; exact nodup_keys_insert a.id a db h
    | delete i => rw [applyOp_delete]; exact nodup_keys_erase i db h

theorem mem_keys_runOps (ops : List StoreOp) (i : Int) :
    i ∈ keysList (runOps ops) ↔ liveRev ops.reverse i := by
  induction ops using List.reverseRecOn with
  | nil => simp [runOps, keysList, liveRev]
  | append_singleton l op ih =>
    have hrev : (l ++ [op]).reverse = op :: l.reverse := by simp
    have hrun : runOps (l ++ [op]) = applyOp (runOps l) op := by
      rw [runOps, List.foldl_append]; rfl
    cases op with
    | create a =>
      rw [hrun, applyOp_create, mem_keys_insert, hrev, liveRev_create, ih, eq_comm]
    | delete j =>
      rw [hrun, applyOp_delete, mem_keys_erase, hrev, liveRev_delete, ih,
        and_comm, ne_comm]

/-! ## Claim theorems -/

/-- C1: when the upstream call fails (network or JSON decode error) or the
payload lacks the expected record under the key slip, the create handler does
not insert anything — but contrary to the claim it does not fail with an
`UpstreamError` surfaced as a server-side error status: the unwrap calls
(src/main.rs, lines 76 and 96) panic, crashing the handler, in every one of
those cases, with the store left exactly as it was. -/
theorem c1_create_crashes_on_upstream_failure (db : Db) :
    advices_create (.error .network) db = .crash db
    ∧ advices_create (.error .badJson) db = .crash db
    ∧ advices_create (.ok []) db = .crash db :=
  ⟨rfl, rfl, rfl⟩

/-- C2: after any finite sequence of create/delete handler operations starting
from the empty store, an id appears among the ids of the records returned by
the list handler iff it was inserted by some create and not subsequently
deleted; and the list handler returns exactly the current store contents. -/
theorem c2_list_ids_are_live_ids (ops : List StoreOp) (i : Int) :
    (i ∈ ((advices_index (runOps ops)).2.map Advice.id) ↔ LiveId ops i)
    ∧ (advices_index (runOps ops)).2 = hmValues (runOps ops) := by
  constructor
  · have hkc : KeyCoherent (runOps ops) :=
      keyCoherent_foldl ops [] (fun p hp => absurd hp (List.not_mem_nil p))
    have hv : (advices_index (runOps ops)).2 = hmValues (runOps ops) := rfl
    rw [hv, values_ids_eq_keys _ hkc]
    exact mem_keys_runOps ops i
  · rfl

/-- C3: every store reachable from empty through the handlers has pairwise
distinct keys (at most one record per id); inserting at an existing or fresh
key yields `some v` at that key and leaves every other key unchanged
(last-write-wins), and insert is a total function (always succeeds). -/
theorem c3_unique_keys_and_lww_insert (ops : List StoreOp) (k : Int) (v : Advice)
    (db : Db) :
    (keysList (runOps ops)).Nodup
    ∧ hmLookup k (hmInsert k v db) = some v
    ∧ ∀ i, i ≠ k → hmLookup i (hmInsert k v db) = hmLookup i db :=
  ⟨nodup_keys_foldl ops [] List.nodup_nil,
   hmLookup_insert_self k v db,
   fun i hi => hmLookup_insert_ne k i v db hi⟩

/-- C3 witness. -/
theorem c3_witness :
    hmLookup 2 (hmInsert 1 (Advice.mk 1 "a") []) = hmLookup 2 [] :=
  (c3_unique_keys_and_lww_insert [] 1 (Advice.mk 1 "a") []).2.2 2 (by decide)

/-- C4: the delete handler answers `204 No Content`, having removed the record,
when a record with the id existed, and `404 Not Found`, with the store intact,
when none existed. -/
theorem c4_delete_status (id : Int) (db : Db) :
    (hmContains id db = true → advices_delete id db = (204, hmErase id db))
    ∧ (hmContains id db = false → advices_delete id db = (404, db)) := by
  constructor
  · intro h
    have h1 : (hmLookup id db).isSome = true := by
      rw [← hmContains_iff_lookup]; exact h
    simp [advices_delete, hmRemove, h1]
  · intro h
    have h1 : (hmLookup id db).isSome = false := by
      rw [← hmContains_iff_lookup]; exact h
    simp [advices_delete, hmRemove, h1, hmErase_of_not_contains id db h]

/-- C4 witness. -/
theorem c4_witness :
    advices_delete 1 [((1 : Int), Advice.mk 1 "a")]
      = (204, hmErase 1 [((1 : Int), Advice.mk 1 "a")])
    ∧ advices_delete 2 [((1 : Int), Advice.mk 1 "a")]
      = (404, [((1 : Int), Advice.mk 1 "a")]) :=
  ⟨(c4_delete_status 1 _).1 (by decide), (c4_delete_status 2 _).2 (by decide)⟩

/-- C5: when the upstream payload contains a record under the key slip, the
create handler responds `201 Created` with that record as body, and the new
store is exactly the old one with that single record inserted at its own id:
the record is found at its id and every other key is untouched. -/
theorem c5_create_success (resp : List (String × Advice)) (a : Advice) (db : Db)
    (h : slipLookup "slip" resp = some a) :
    advices_create (.ok resp) db = .response 201 a (hmInsert a.id a db)
    ∧ hmLookup a.id (hmInsert a.id a db) = some a
    ∧ ∀ k, k ≠ a.id → hmLookup k (hmInsert a.id a db) = hmLookup k db := by
  refine ⟨?_, hmLookup_insert_self _ a db, fun k hk => hmLookup_insert_ne _ k a db hk⟩
  simp [advices_create, advices_generate, h]

/-- C5 witness. -/
theorem c5_witness :
    advices_create (.ok [("slip", Advice.mk 7 "w")]) []
      = .response 201 (Advice.mk 7 "w") (hmInsert 7 (Advice.mk 7 "w") []) :=
  (c5_create_success [("slip", Advice.mk 7 "w")] (Advice.mk 7 "w") [] (by decide)).1

/-- C6: removing an id that is not present returns no removed value (`remove`
yields false), answers `404` with the store unchanged, and the list handler
output is identical before and after. -/
theorem c6_remove_absent (id : Int) (db : Db) (h : hmContains id db = false) :
    (hmRemove id db).1 = none
    ∧ advices_delete id db = (404, db)
    ∧ advices_index ((advices_delete id db).2) = advices_index db := by
  have h1 : (hmLookup id db).isSome = false := by
    rw [← hmContains_iff_lookup]; exact h
  have h2 : hmLookup id db = none := by
    cases h3 : hmLookup id db
    · rfl
    · rw [h3] at h1; simp at h1
  refine ⟨h2, ?_, ?_⟩ <;>
    simp [advices_delete, hmRemove, h1, hmErase_of_not_contains id db h]

/-- C6 witness. -/
theorem c6_witness :
    (hmRemove 2 [((1 : Int), Advice.mk 1 "a")]).1 = none :=
  (c6_remove_absent 2 [((1 : Int), Advice.mk 1 "a")] (by decide)).1

/-- C7: a delete request whose path segment does not parse as a valid `i64`
integer is answered `400 Bad Request` and the store is not modified. -/
theorem c7_delete_invalid_identifier (seg : String) (db : Db)
    (h : parseI64 seg = none) :
    advices_delete_route seg db = (400, db) := by
  simp [advices_delete_route, h]

/-- C7 witness. -/
theorem c7_witness : advices_delete_route "abc" [] = (400, []) :=
  c7_delete_invalid_identifier "abc" [] (by decide)

/-- C8: in the effect order of the create handler, the upstream fetch ends
strictly before the write lock is acquired; any prefix of the execution cut
before the fetch has completed (a cancellation point) contains no insert; and
from the moment the lock is acquired no fetch activity occurs, so the lock is
never held across the network call. -/
theorem c8_fetch_completes_before_lock :
    createEvents.indexOf .fetchEnd < createEvents.indexOf .lockAcquire
    ∧ (∀ n, Ev.fetchEnd ∉ createEvents.take n → Ev.insertDone ∉ createEvents.take n)
    ∧ (∀ e ∈ createEvents.drop (createEvents.indexOf .lockAcquire),
        e ≠ Ev.fetchStart ∧ e ≠ Ev.fetchEnd) := by
  refine ⟨by decide, ?_, by decide⟩
  intro n h
  match n with
  | 0 => decide
  | 1 => decide
  | (n + 2) =>
    exfalso
    apply h
    simp [createEvents, List.take_succ_cons]

/-- C8 witness. -/
theorem c8_witness : Ev.insertDone ∉ createEvents.take 1 :=
  c8_fetch_completes_before_lock.2.1 1 (by decide)

/-- C9: in every store reachable from empty through the handlers, each entry
is keyed by the id field of the record it holds (the list handler reads the
store without modifying it, and create/delete preserve the invariant). -/
theorem c9_keys_match_record_ids (ops : List StoreOp) (p : Int × Advice)
    (hp : p ∈ runOps ops) : p.1 = p.2.id :=
  keyCoherent_foldl ops [] (fun q hq => absurd hq (List.not_mem_nil q)) p hp

/-- C9 witness. -/
theorem c9_witness :
    ((1 : Int), Advice.mk 1 "a").1 = ((1 : Int), Advice.mk 1 "a").2.id :=
  c9_keys_match_record_ids [.create ⟨1, "a"⟩] ((1 : Int), Advice.mk 1 "a") (by decide)

/-- C10: a successful delete (the id is present, answered `204`) removes only
the entry with that id: lookup at every other key is unchanged, and lookup at
the deleted id yields nothing. -/
theorem c10_delete_frame (id : Int) (db : Db) (h : hmContains id db = true)
    (k : Int) (hk : k ≠ id) :
    (advices_delete id db).1 = 204
    ∧ hmLookup k ((advices_delete id db).2) = hmLookup k db
    ∧ hmLookup id ((advices_delete id db).2) = none := by
  have h1 : (hmLookup id db).isSome = true := by
    rw [← hmContains_iff_lookup]; exact h
  have hd : (advices_delete id db).2 = hmErase id db := by
    simp [advices_delete, hmRemove, h1]
  refine ⟨by simp [advices_delete, hmRemove, h1], ?_, ?_⟩
  · rw [hd]; exact hmLookup_erase_ne id k db hk
  · rw [hd]; exact hmLookup_erase_self id db

/-- C10 witness. -/
theorem c10_witness :
    hmLookup 2 ((advices_delete 1
        [((1 : Int), Advice.mk 1 "a"), ((2 : Int), Advice.mk 2 "b")]).2)
      = hmLookup 2 [((1 : Int), Advice.mk 1 "a"), ((2 : Int), Advice.mk 2 "b")] :=
  (c10_delete_frame 1 _ (by decide) 2 (by decide)).2.1
